import Mathlib

/-!
Shallow embedding of the `arve` radial-velocity pipeline:
the CCF builder and RV/FWHM extractor of `src/arve/data.py`
(`compute_vrad_ccf`), the velocity-power-spectral-density builder of
`src/arve/star/compute_vpsd.py`, and the component model library of
`src/arve/star/plot_vpsd_components.py`.

Numpy float arrays are embedded as `List ℚ` where the code is exact rational
arithmetic, and as `List ℝ` where logarithms, real powers or square roots
appear.  Elementwise numpy operations become `List.map`/`List.zipWith`,
boolean-mask selection becomes `List.filter`, and Python exceptions become an
`Except` value with one constructor per builtin exception class.
-/

namespace Arve

/-- Speed of light in km/s, the constant of the Doppler-shift helper. -/
def cLight : ℚ := 299792458 / 1000

/-- Builtin Python exception classes that `compute_vrad_ccf` can raise,
together with the spec's `DomainError`, which the spec-modelled Doppler
Shift raises on an empty wavelength array and which no code path under
`src/` produces itself. -/
inductive PyExc
  | valueError
  | typeError
  | keyError
  | indexError
  | runtimeError
  | domainError
deriving DecidableEq

/-- Modelled from the spec: the scalar form of the Doppler Shift component
(`arve.functions.doppler_shift`, not present under `src/`):
`wavelength * (1 + v / c)` with `v` in km/s and `c` the speed of light in
km/s, applied per wavelength.  The component's array form, which carries
spec 4.1's `DomainError` on an empty wavelength array, is
`doppler_shift_arr` below. -/
def doppler_shift (wave v : ℚ) : ℚ := wave * (1 + v / cLight)

/-- Modelled from the spec: the Doppler Shift component on a wavelength
array, `shift(wavelength[], v) → wavelength'[]`, elementwise
`wavelength·(1+v/c)`; per spec 4.1 it "fails with DomainError on an empty
wavelength array". -/
def doppler_shift_arr (wave : List ℚ) (v : ℚ) : Except PyExc (List ℚ) :=
  if wave.isEmpty then Except.error PyExc.domainError
  else Except.ok (wave.map (fun wv => doppler_shift wv v))

/-- Right-insertion sorted-search index, the behaviour of
`np.searchsorted(wave, x, side="right")` on a sorted array: the least index
whose entry exceeds `x`, or the array length when no entry does. -/
def searchsortedRight (wave : List ℚ) (x : ℚ) : ℕ :=
  wave.findIdx (fun wv => decide (x < wv))

/-- Python `min` over a numpy array (seeded with the head; `0` on the empty
array, on which the Python builtin would raise). -/
def pyMin (l : List ℚ) : ℚ := l.foldl min (l.headD 0)

/-- Python `max` over a numpy array (seeded with the head). -/
def pyMax (l : List ℚ) : ℚ := l.foldl max (l.headD 0)

/-- First index attaining the minimum, the behaviour of `np.argmin`. -/
def npArgmin (l : List ℚ) : ℕ := l.findIdx (fun x => decide (x ≤ pyMin l))

/-- Half-open arithmetic range `np.arange(start, stop, step)` for a positive
step: the values `start + k * step` for `0 ≤ k < ⌈(stop - start) / step⌉`. -/
def npArange (start stop step : ℚ) : List ℚ :=
  (List.range (Int.toNat ⌈(stop - start) / step⌉)).map (fun k : ℕ => start + (k : ℚ) * step)

/-- The velocity grid of `compute_vrad_ccf`:
`np.arange(vgrid[0], vgrid[1] + vgrid[2] / 2, vgrid[2])`. -/
def vradsGrid (v0 v1 dv : ℚ) : List ℚ := npArange v0 (v1 + dv / 2) dv

/-- Numpy integer-array indexing with Python's negative-index wrap-around;
out-of-range indices (which numpy would reject) default to `0`. -/
def npGet (l : List ℚ) (i : ℤ) : ℚ :=
  if i < 0 then l.getD (l.length - (-i).toNat) 0 else l.getD i.toNat 0

/-! ### Component model library (`plot_vpsd_components.py`, lines 22–79) -/

/-- One VPSD component: the string-typed dispatch of
`plot_vpsd_components.py` as a tagged variant with its coefficient vector. -/
inductive VpsdComponent
  | constant (c0 : ℝ)
  | lorentz (c0 c1 c2 : ℝ)
  | harvey (c0 c1 c2 : ℝ)

/-- Density of one component at a frequency, exactly the three `vpsd_comp`
formulas of `plot_vpsd_components.py` (the Constant branch is a scalar that
numpy broadcasts over the frequency array). -/
noncomputable def componentDensity : VpsdComponent → ℝ → ℝ
  | .constant c0, _ => c0
  | .lorentz c0 c1 c2, f => c0 * c1 ^ 2 / (c1 ^ 2 + (f - c2) ^ 2)
  | .harvey c0 c1 c2, f => c0 / (1 + (c1 * f) ^ c2)

/-- The accumulated component sum `vpsd_tot`: a zero array of the length of
`freq`, with each component's density array added elementwise in turn. -/
noncomputable def vpsdTot (comps : List VpsdComponent) (freq : List ℝ) : List ℝ :=
  comps.foldl
    (fun acc comp => List.zipWith (fun a b => a + b) acc (freq.map (componentDensity comp)))
    (freq.map (fun _ => 0))

/-! ### CCF builder: one epoch, one velocity-grid point (`data.py`, lines 199–217) -/

/-- Body of the inner CCF loop of `compute_vrad_ccf` for one velocity `v`:
shifted centers `wc_shift`, right/left index arrays `i_r`/`i_l`, fraction
arrays `f_r`/`f_l`, and the weighted sums.  Returns the CCF value and the
squared CCF error (the code applies `** (1/2)` to the latter). -/
def ccfPoint (wave flux flux_err wc w : List ℚ) (v : ℚ) : ℚ × ℚ :=
  let wcShift := wc.map (fun c => doppler_shift c v)
  let iR : List ℤ := wcShift.map (fun s => (searchsortedRight wave s : ℤ))
  let iL : List ℤ := iR.map (fun i => i - 1)
  let fR : List ℚ := List.zipWith
    (fun s i => (s - npGet wave (i - 1)) / (npGet wave i - npGet wave (i - 1))) wcShift iR
  let fL : List ℚ := fR.map (fun x => 1 - x)
  let vTerms := List.zipWith (fun a b => a + b)
    (List.zipWith (fun a b => a * b) (iL.map (fun i => npGet flux i)) fL)
    (List.zipWith (fun a b => a * b) (iR.map (fun i => npGet flux i)) fR)
  let eTerms := List.zipWith (fun a b => a + b)
    (List.zipWith (fun a b => a * b) (iL.map (fun i => (npGet flux_err i) ^ 2)) fL)
    (List.zipWith (fun a b => a * b) (iR.map (fun i => (npGet flux_err i) ^ 2)) fR)
  ((List.zipWith (fun a b => a * b) vTerms w).sum,
    (List.zipWith (fun a b => a * b) eTerms (w.map (fun x => x ^ 2))).sum)

/-- The CCF error the code stores: square root of the accumulated
error-squared sum. -/
noncomputable def ccfErrPoint (wave flux flux_err wc w : List ℚ) (v : ℚ) : ℝ :=
  Real.sqrt ((ccfPoint wave flux flux_err wc w v).2 : ℚ)

/-- The inner CCF loop body including the failure behaviour of its first
statement, the call `doppler_shift(wave=wc, v=vrads[j])` on the filtered mask
array (`data.py`, line 201): per the spec-modelled array Doppler shift this
fails with `DomainError` when the filtered mask is empty, and otherwise the
loop body computes the CCF value and squared error. -/
def ccfPointChecked (wave flux flux_err wc w : List ℚ) (v : ℚ) : Except PyExc (ℚ × ℚ) :=
  (doppler_shift_arr wc v).map (fun _ => ccfPoint wave flux flux_err wc w v)

/-- Linear interpolation of `flux` at the Doppler-shifted center of one mask
line, written as the spec states it: `flux[i_l]·f_l + flux[i_r]·f_r` with
`i_r` the right-insertion index, `i_l = i_r − 1`,
`f_r = (wc_shift − wave[i_l])/(wave[i_r] − wave[i_l])` and `f_l = 1 − f_r`. -/
def lineInterp (wave flux : List ℚ) (c v : ℚ) : ℚ :=
  let s := doppler_shift c v
  let ir : ℤ := (searchsortedRight wave s : ℤ)
  let fr := (s - npGet wave (ir - 1)) / (npGet wave ir - npGet wave (ir - 1))
  npGet flux (ir - 1) * (1 - fr) + npGet flux ir * fr

/-- One mask line's `flux_err² · f` term of the CCF error model. -/
def lineErrTerm (wave flux_err : List ℚ) (c v : ℚ) : ℚ :=
  let s := doppler_shift c v
  let ir : ℤ := (searchsortedRight wave s : ℤ)
  let fr := (s - npGet wave (ir - 1)) / (npGet wave ir - npGet wave (ir - 1))
  (npGet flux_err (ir - 1)) ^ 2 * (1 - fr) + (npGet flux_err ir) ^ 2 * fr

/-- Spec-side CCF value: weighted sum over mask lines of the interpolated
fluxes. -/
def ccfValSpec (wave flux wc w : List ℚ) (v : ℚ) : ℚ :=
  ((wc.zip w).map (fun p => lineInterp wave flux p.1 v * p.2)).sum

/-- Spec-side squared CCF error: weighted sum of `flux_err² · f` terms with
the weights squared and the fractions unsquared. -/
def ccfErrSqSpec (wave flux_err wc w : List ℚ) (v : ℚ) : ℚ :=
  ((wc.zip w).map (fun p => lineErrTerm wave flux_err p.1 v * p.2 ^ 2)).sum

/-! ### RV/FWHM extractor: initial guess (`data.py`, lines 219–224) -/

/-- The half-depth threshold `C0 - a0 / 2` of the initial guess, with
`C0 = np.max(ccf_val)` and `a0 = C0 - np.min(ccf_val)`. -/
def halfDepth (ccf : List ℚ) : ℚ := pyMax ccf - (pyMax ccf - pyMin ccf) / 2

/-- Initial guess `p0 = (C0, a0, b0, c0)` of the per-epoch Gaussian fit:
`C0 = np.max(ccf_val)`, `a0 = C0 - np.min(ccf_val)`,
`b0 = vrads[np.argmin(ccf_val)]`, and
`c0 = (b0 - vrads[np.where(ccf_val < (C0 - a0/2))[0][0]]) * 2`; `none` models
the `IndexError` the code raises when no entry is below the threshold. -/
def p0Guess (vrads ccf : List ℚ) : Option (ℚ × ℚ × ℚ × ℚ) :=
  let C0 := pyMax ccf
  let a0 := C0 - pyMin ccf
  let b0 := vrads.getD (npArgmin ccf) 0
  (ccf.findIdx? (fun x => decide (x < C0 - a0 / 2))).map
    (fun j => (C0, a0, b0, (b0 - vrads.getD j 0) * 2))

/-- The first index left of the CCF minimum whose value is below the
half-depth threshold, as the spec words the `c0` heuristic. -/
def firstLeftBelow (ccf : List ℚ) : Option ℕ :=
  (List.range (npArgmin ccf)).findIdx? (fun i => decide (ccf.getD i 0 < halfDepth ccf))

/-! ### Python exceptions and the per-epoch fit (`data.py`, lines 99–119 and 219–233) -/

/-- Modelled from the spec: the external weighted nonlinear least-squares
optimizer (`scipy.optimize.curve_fit` on the inverted-Gaussian line-profile
model, both outside this repository's `src/`).  Whether the optimizer
converges, the moments it returns on convergence, and the covariance it
returns are inputs of the model. -/
structure CurveFit (α : Type) where
  converges : Bool
  popt : α × α × α × α
  pcov : List (List α)

/-- Per-epoch Gaussian fit of `compute_vrad_ccf`: build the initial guess
(raising `IndexError` when no grid point is below half depth), then run the
optimizer (raising `RuntimeError` when it does not converge). -/
def epochFit (vrads ccf : List ℚ) (cf : CurveFit ℚ) : Except PyExc (ℚ × ℚ × ℚ × ℚ) :=
  match p0Guess vrads ccf with
  | none => .error .indexError
  | some _ => if cf.converges then .ok cf.popt else .error .runtimeError

/-! ### Mask pre-filter and weight normalization (`data.py`, lines 170–196) -/

/-- The pre-filter of `compute_vrad_ccf`: keep a mask line when its
Doppler-shifted center at the minimum grid velocity is above `min(wave)` and
at the maximum grid velocity is below `max(wave)`. -/
def maskKeep (wave vrads : List ℚ) (c : ℚ) : Bool :=
  decide (pyMin wave < doppler_shift c (pyMin vrads))
    && decide (doppler_shift c (pyMax vrads) < pyMax wave)

/-- Everything `compute_vrad_ccf` does between reading the mask and entering
the epoch loop (lines 170–196): filter the mask lines and weights by
`maskKeep` and normalize the weights by their sum.  No code path on these
lines raises; in particular an empty filtered mask passes through (numpy
divides the empty weight array by the zero sum without error). -/
def preEpochPhase (wave vrads wc w : List ℚ) : Except PyExc (List ℚ × List ℚ) :=
  let kept := (wc.zip w).filter (fun p => maskKeep wave vrads p.1)
  let wcF := kept.map Prod.fst
  let wF := kept.map Prod.snd
  Except.ok (wcF, wF.map (fun x => x / wF.sum))

/-! ### Spectral-data validation (`data.py`, lines 99–119) -/

/-- The value arrays of `self.spec`; `none` models a field left as `None`
(e.g. `flux_err` never supplied to `add_spec`). -/
structure SpecDict where
  time : Option (List ℚ)
  wave : Option (List ℚ)
  flux_val : Option (List ℚ)
  flux_err : Option (List ℚ)

/-- Python truthiness of `None`-or-numpy-array operands as evaluated by
`bool(...)`: `None` is falsy; a one-element array is truthy iff its entry is
nonzero; any other array raises numpy's ambiguous-truth-value
`ValueError`. -/
def npTruthy (a : Option (List ℚ)) : Except PyExc Bool :=
  match a with
  | none => .ok false
  | some l => if l.length = 1 then .ok (decide (l.getD 0 0 ≠ 0)) else .error .valueError

/-- The guard of `compute_vrad_ccf` (lines 99–119): `self.spec[key]` lookups
(a `KeyError` when `add_spec` never ran and the dict is empty), then
`if not (time and wave and flux_val and flux_err)` with Python's
left-to-right short-circuit truthiness, raising the missing-data `ValueError`
on a falsy operand; the subsequent `isinstance` checks pass for every operand
that got this far. -/
def validateSpec (d : Option SpecDict) : Except PyExc Unit :=
  match d with
  | none => .error .keyError
  | some s =>
    match npTruthy s.time with
    | .error e => .error e
    | .ok t =>
      if !t then .error .valueError else
      match npTruthy s.wave with
      | .error e => .error e
      | .ok b =>
        if !b then .error .valueError else
        match npTruthy s.flux_val with
        | .error e => .error e
        | .ok b2 =>
          if !b2 then .error .valueError else
          match npTruthy s.flux_err with
          | .error e => .error e
          | .ok b3 =>
            if !b3 then .error .valueError else .ok ()

/-! ### RV error propagation (`data.py`, lines 236–241) -/

/-- The discrete derivative `np.gradient` of a 1-D array: one-sided
differences at the two edges, central differences in the interior. -/
noncomputable def npGradient (l : List ℝ) : List ℝ :=
  (List.range l.length).map (fun i =>
    if i = 0 then l.getD 1 0 - l.getD 0 0
    else if i = l.length - 1 then l.getD i 0 - l.getD (i - 1) 0
    else (l.getD (i + 1) 0 - l.getD (i - 1) 0) / 2)

/-- The RV error the code stores for one epoch:
`1 / np.sqrt(np.sum(1 / np.abs(ccf_err * np.gradient(vrads) / np.gradient(ccf_val)) ** 2))`,
with the elementwise numpy pipeline as `zipWith`/`map`. -/
noncomputable def vradErrCode (vrads ccf_val ccf_err : List ℝ) : ℝ :=
  1 / Real.sqrt
    (((List.zipWith (fun a b => a / b)
        (List.zipWith (fun a b => a * b) ccf_err (npGradient vrads))
        (npGradient ccf_val)).map (fun x => 1 / |x| ^ 2)).sum)

/-- The RV error as the spec states it:
`1/sqrt(Σ_j (1/|ccf_err_j · d(velocity)/d(ccf) at j|)²)` with the
discretized derivative ratio of the two gradients. -/
noncomputable def vradErrSpec (vrads ccf_val ccf_err : List ℝ) : ℝ :=
  1 / Real.sqrt (∑ j ∈ Finset.range vrads.length,
    1 / |ccf_err.getD j 0 * (npGradient vrads).getD j 0
          / (npGradient ccf_val).getD j 0| ^ 2)

/-- The per-epoch RV outputs of `compute_vrad_ccf`: the fitted center
`ccf_mom[2]` and the propagated RV error (the optimizer's covariance output
is discarded). -/
noncomputable def epochRV (vrads ccf_val ccf_err : List ℝ) (cf : CurveFit ℝ) : ℝ × ℝ :=
  (cf.popt.2.2.1, vradErrCode vrads ccf_val ccf_err)

/-! ### VPSD builder (`compute_vpsd.py`, lines 16–34) -/

/-- One of the 51 log-spaced bin edges
`10 ** np.linspace(np.log10(freq[0]), np.log10(freq[-1]), 51)`. -/
noncomputable def freqBinEdge (f0 fN : ℝ) (i : ℕ) : ℝ :=
  (10 : ℝ) ^ (Real.logb 10 f0 + (i : ℝ) * ((Real.logb 10 fN - Real.logb 10 f0) / 50))

/-- The `freq_bin` edge array of `compute_vpsd`. -/
noncomputable def freqBin (freq : List ℝ) : List ℝ :=
  (List.range 51).map (fun i => freqBinEdge (freq.headD 0) (freq.getLastD 0) i)

/-- The periodogram samples selected into bin `i`:
`vps[(freq > freq_bin[i]) & (freq < freq_bin[i + 1])]`, paired with their
frequencies (numpy's boolean-mask selection). -/
noncomputable def binPairs (freq vps : List ℝ) (i : ℕ) : List (ℝ × ℝ) :=
  (freq.zip vps).filter (fun p =>
    decide (freqBinEdge (freq.headD 0) (freq.getLastD 0) i < p.1)
      && decide (p.1 < freqBinEdge (freq.headD 0) (freq.getLastD 0) (i + 1)))

/-- The per-bin average power: `np.mean` of the selected samples, or `none`
for the `np.nan` the code stores when the bin is empty. -/
noncomputable def vpsAvgAt (freq vps : List ℝ) (i : ℕ) : Option ℝ :=
  let b := (binPairs freq vps i).map Prod.snd
  if b.isEmpty then none else some (b.sum / b.length)

/-- The midpoint frequency `(freq_bin[1:] + freq_bin[:-1]) / 2` of bin `i`. -/
noncomputable def freqAvgAt (freq : List ℝ) (i : ℕ) : ℝ :=
  (freqBinEdge (freq.headD 0) (freq.getLastD 0) (i + 1)
    + freqBinEdge (freq.headD 0) (freq.getLastD 0) i) / 2

/-- The `(freq_avg, vps_avg)` pairs that survive the joint `np.delete` of the
NaN positions: one pair per nonempty bin, alignment preserved. -/
noncomputable def binnedAvg (freq vps : List ℝ) : List (ℝ × ℝ) :=
  (List.range 50).filterMap
    (fun i => (vpsAvgAt freq vps i).map (fun m => (freqAvgAt freq i, m)))

/-- Full-resolution density `vpsd = vps / win_area`. -/
noncomputable def vpsdOf (vps : List ℝ) (winArea : ℝ) : List ℝ :=
  vps.map (fun p => p / winArea)

/-- Binned density `vpsd_avg = vps_avg / win_area`. -/
noncomputable def vpsdAvgOf (freq vps : List ℝ) (winArea : ℝ) : List ℝ :=
  (binnedAvg freq vps).map (fun p => p.2 / winArea)

/-! ### Lemmas and claim theorems -/

lemma getD_eq_getElem_of_lt {α : Type} [Inhabited α] (l : List α) (i : ℕ) (d : α)
    (h : i < l.length) : l.getD i d = l[i] := by
  rw [List.getD_eq_getElem?_getD, List.getElem?_eq_getElem h, Option.getD_some]

lemma vpsdTot_aux_length (comps : List VpsdComponent) (freq : List ℝ) (acc : List ℝ)
    (hacc : acc.length = freq.length) :
    (comps.foldl
      (fun acc comp => List.zipWith (fun a b => a + b) acc (freq.map (componentDensity comp)))
      acc).length = freq.length := by
  induction comps generalizing acc with
  | nil => simpa using hacc
  | cons c cs ih =>
    simp only [List.foldl_cons]
    exact ih _ (by simp [List.length_zipWith, hacc])

lemma vpsdTot_length (comps : List VpsdComponent) (freq : List ℝ) :
    (vpsdTot comps freq).length = freq.length :=
  vpsdTot_aux_length comps freq _ (by simp)

lemma vpsdTot_aux_getD (comps : List VpsdComponent) (freq : List ℝ) (acc : List ℝ)
    (hacc : acc.length = freq.length) (j : ℕ) (hj : j < freq.length) :
    (comps.foldl
      (fun acc comp => List.zipWith (fun a b => a + b) acc (freq.map (componentDensity comp)))
      acc).getD j 0
      = acc.getD j 0 + (comps.map (fun c => componentDensity c (freq.getD j 0))).sum := by
  induction comps generalizing acc with
  | nil => simp
  | cons c cs ih =>
    simp only [List.foldl_cons, List.map_cons, List.sum_cons]
    rw [ih _ (by simp [List.length_zipWith, hacc])]
    have hlen : j < (List.zipWith (fun a b => a + b) acc (freq.map (componentDensity c))).length := by
      simp [List.length_zipWith, hacc, hj]
    rw [getD_eq_getElem_of_lt _ _ _ hlen, List.getElem_zipWith, List.getElem_map,
      getD_eq_getElem_of_lt _ _ _ (hacc ▸ hj : j < acc.length),
      getD_eq_getElem_of_lt _ _ _ hj]
    ring

lemma vpsdTot_getD (comps : List VpsdComponent) (freq : List ℝ) (j : ℕ)
    (hj : j < freq.length) :
    (vpsdTot comps freq).getD j 0
      = (comps.map (fun c => componentDensity c (freq.getD j 0))).sum := by
  rw [vpsdTot, vpsdTot_aux_getD comps freq _ (by simp) j hj]
  have : j < (freq.map (fun _ => (0 : ℝ))).length := by simpa using hj
  rw [getD_eq_getElem_of_lt _ _ _ this, List.getElem_map]
  ring

/-- C7: the Constant component evaluates to `c0`, Lorentz to
`c0·c1²/(c1²+(f−c2)²)`, Harvey to `c0/(1+(c1·f)^c2)`; the composite array is
the elementwise sum of the component densities, independent of the order in
which the components are listed; and the composite of `Constant 2` and
`Lorentz 1 1 0` at `f = 0` equals `3`. -/
theorem c7_component_library :
    (∀ c0 f, componentDensity (.constant c0) f = c0)
    ∧ (∀ c0 c1 c2 f, componentDensity (.lorentz c0 c1 c2) f
        = c0 * c1 ^ 2 / (c1 ^ 2 + (f - c2) ^ 2))
    ∧ (∀ c0 c1 c2 f, componentDensity (.harvey c0 c1 c2) f = c0 / (1 + (c1 * f) ^ c2))
    ∧ (∀ comps freq j, j < freq.length →
        (vpsdTot comps freq).getD j 0
          = (comps.map (fun c => componentDensity c (freq.getD j 0))).sum)
    ∧ (∀ comps comps' freq, List.Perm comps comps' → vpsdTot comps freq = vpsdTot comps' freq)
    ∧ vpsdTot [.constant 2, .lorentz 1 1 0] [0] = [3] := by
  refine ⟨fun _ _ => rfl, fun _ _ _ _ => rfl, fun _ _ _ _ => rfl,
    vpsdTot_getD, ?_, ?_⟩
  · intro comps comps' freq hperm
    apply List.ext_getElem (by rw [vpsdTot_length, vpsdTot_length])
    intro j h1 h2
    have hj : j < freq.length := by rwa [vpsdTot_length] at h1
    rw [← getD_eq_getElem_of_lt _ _ 0 h1, ← getD_eq_getElem_of_lt _ _ 0 h2,
      vpsdTot_getD _ _ _ hj, vpsdTot_getD _ _ _ hj]
    exact List.Perm.sum_eq (hperm.map _)
  · show List.zipWith _ (List.zipWith _ _ _) _ = _
    norm_num [componentDensity]

/-- Instantiation of `c7_component_library`'s order-independence clause at a
concrete two-component list, discharging the permutation hypothesis. -/
theorem c7_component_library_witness :
    vpsdTot [.constant 2, .lorentz 1 1 0] [0]
      = vpsdTot [.lorentz 1 1 0, .constant 2] [0] :=
  c7_component_library.2.2.2.2.1 _ _ _ (List.Perm.swap _ _ _)

lemma ccfPoint_eq_spec (wave flux flux_err : List ℚ) (v : ℚ) :
    ∀ (wc w : List ℚ),
      (ccfPoint wave flux flux_err wc w v).1 = ccfValSpec wave flux wc w v
      ∧ (ccfPoint wave flux flux_err wc w v).2 = ccfErrSqSpec wave flux_err wc w v := by
  intro wc
  induction wc with
  | nil => intro w; simp [ccfPoint, ccfValSpec, ccfErrSqSpec]
  | cons c wc ih =>
    intro w
    cases w with
    | nil => simp [ccfPoint, ccfValSpec, ccfErrSqSpec]
    | cons wt w' =>
      have h := ih w'
      constructor
      · have h1 := h.1
        simp only [ccfPoint, ccfValSpec, List.map_cons, List.zipWith_cons_cons,
          List.zip_cons_cons, List.sum_cons] at h1 ⊢
        rw [h1, lineInterp]
      · have h2 := h.2
        simp only [ccfPoint, ccfErrSqSpec, List.map_cons, List.zipWith_cons_cons,
          List.zip_cons_cons, List.sum_cons] at h2 ⊢
        rw [h2, lineErrTerm]

/-- C1: for every epoch and velocity-grid point, the CCF value computed by
the `compute_vrad_ccf` loop body equals the weighted sum over mask lines of
the linear interpolation `flux[i_l]·f_l + flux[i_r]·f_r`, and the CCF error
equals the square root of the weighted sum of `flux_err²·f` terms with the
weights squared and the fractions unsquared. -/
theorem c1_ccf_value_and_error (wave flux flux_err wc w : List ℚ) (v : ℚ) :
    (ccfPoint wave flux flux_err wc w v).1 = ccfValSpec wave flux wc w v
    ∧ ccfErrPoint wave flux flux_err wc w v
        = Real.sqrt (ccfErrSqSpec wave flux_err wc w v : ℚ) := by
  refine ⟨(ccfPoint_eq_spec wave flux flux_err v wc w).1, ?_⟩
  rw [ccfErrPoint, (ccfPoint_eq_spec wave flux flux_err v wc w).2]

lemma foldl_min_le_init (l : List ℚ) (a : ℚ) : l.foldl min a ≤ a := by
  induction l generalizing a with
  | nil => simp
  | cons x t ih => exact le_trans (ih (min a x)) (min_le_left a x)

lemma foldl_min_le_mem (l : List ℚ) (a x : ℚ) (hx : x ∈ l) : l.foldl min a ≤ x := by
  induction l generalizing a with
  | nil => cases hx
  | cons y t ih =>
    rcases List.mem_cons.1 hx with rfl | hx'
    · exact le_trans (foldl_min_le_init t (min a x)) (min_le_right a x)
    · exact ih (min a y) hx'

lemma le_foldl_max_init (l : List ℚ) (a : ℚ) : a ≤ l.foldl max a := by
  induction l generalizing a with
  | nil => simp
  | cons x t ih => exact le_trans (le_max_left a x) (ih (max a x))

lemma le_foldl_max_mem (l : List ℚ) (a x : ℚ) (hx : x ∈ l) : x ≤ l.foldl max a := by
  induction l generalizing a with
  | nil => cases hx
  | cons y t ih =>
    rcases List.mem_cons.1 hx with rfl | hx'
    · exact le_trans (le_max_right a x) (le_foldl_max_init t (max a x))
    · exact ih (max a y) hx'

lemma foldl_min_eq_of_le (l : List ℚ) (a : ℚ) (h : ∀ x ∈ l, a ≤ x) :
    l.foldl min a = a := by
  induction l generalizing a with
  | nil => rfl
  | cons x t ih =>
    have hax : a ≤ x := h x (List.mem_cons_self x t)
    simp only [List.foldl_cons, min_eq_left hax]
    exact ih a (fun y hy => h y (List.mem_cons_of_mem x hy))

lemma pyMin_le (l : List ℚ) (x : ℚ) (hx : x ∈ l) : pyMin l ≤ x :=
  foldl_min_le_mem l _ x hx

lemma le_pyMax (l : List ℚ) (x : ℚ) (hx : x ∈ l) : x ≤ pyMax l :=
  le_foldl_max_mem l _ x hx

lemma foldl_min_mem_or_init (l : List ℚ) (a : ℚ) :
    l.foldl min a = a ∨ l.foldl min a ∈ l := by
  induction l generalizing a with
  | nil => exact Or.inl rfl
  | cons x t ih =>
    simp only [List.foldl_cons]
    rcases ih (min a x) with h | h
    · rcases min_cases a x with ⟨he, _⟩ | ⟨he, _⟩
      · exact Or.inl (h.trans he)
      · exact Or.inr (by rw [h, he]; exact List.mem_cons_self x t)
    · exact Or.inr (List.mem_cons_of_mem x h)

lemma pyMin_mem (l : List ℚ) (hl : l ≠ []) : pyMin l ∈ l := by
  rcases foldl_min_mem_or_init l (l.headD 0) with h | h
  · cases l with
    | nil => exact absurd rfl hl
    | cons a t => rw [pyMin, h]; exact List.mem_cons_self a t
  · exact h

lemma npArgmin_lt_length (ccf : List ℚ) (hne : ccf ≠ []) : npArgmin ccf < ccf.length :=
  List.findIdx_lt_length_of_exists
    ⟨pyMin ccf, pyMin_mem ccf hne, by simp⟩

/-- C3: whenever some grid point left of the CCF minimum lies below the
half-depth threshold, the code's initial guess is exactly
`(C0, a0, b0, 2·(b0 − vrads[j]))` with `j` the first such index,
`C0 = max(ccf)`, `a0 = C0 − min(ccf)` and `b0` the velocity at
`argmin(ccf)`. -/
theorem c3_initial_guess (vrads ccf : List ℚ) (j : ℕ)
    (h : firstLeftBelow ccf = some j) :
    p0Guess vrads ccf
      = some (pyMax ccf, pyMax ccf - pyMin ccf,
          vrads.getD (npArgmin ccf) 0,
          (vrads.getD (npArgmin ccf) 0 - vrads.getD j 0) * 2) := by
  rw [firstLeftBelow, List.findIdx?_eq_some_iff_getElem] at h
  obtain ⟨hjlen, hpj, hmin⟩ := h
  rw [List.length_range] at hjlen
  rw [List.getElem_range] at hpj
  have hne : ccf ≠ [] := by
    intro hnil
    rw [hnil] at hjlen
    simp [npArgmin] at hjlen
  have hjccf : j < ccf.length := lt_trans hjlen (npArgmin_lt_length ccf hne)
  have hfind : ccf.findIdx? (fun x => decide (x < halfDepth ccf)) = some j := by
    rw [List.findIdx?_eq_some_iff_getElem]
    refine ⟨hjccf, ?_, ?_⟩
    · rw [getD_eq_getElem_of_lt ccf j 0 hjccf] at hpj
      exact hpj
    · intro i hij
      have hi : i < ccf.length := lt_trans hij hjccf
      have := hmin i hij
      rw [List.getElem_range, getD_eq_getElem_of_lt ccf i 0 hi] at this
      exact this
  rw [p0Guess]
  simp only [halfDepth] at hfind
  rw [hfind, Option.map_some']

/-- Concrete instantiation of `c3_initial_guess`: for the CCF samples
`[3, 1, 0, 4]` on the grid `[-1, 0, 1, 2]` the first point left of the
minimum below half depth is index 1, and the guess evaluates to
`(4, 4, 1, 2)`. -/
theorem c3_initial_guess_witness :
    p0Guess [-1, 0, 1, 2] [3, 1, 0, 4] = some (4, 4, 1, 2) := by
  rw [c3_initial_guess [-1, 0, 1, 2] [3, 1, 0, 4] 1
    (by norm_num [firstLeftBelow, halfDepth, npArgmin, pyMin, pyMax,
      List.findIdx?_cons, List.findIdx_cons, List.range_succ])]
  norm_num [npArgmin, pyMin, pyMax, List.findIdx_cons]

/-- C6: the per-epoch Gaussian fit fails exactly when the optimizer does not
converge or when no half-depth crossing exists, i.e. when no grid point has a
CCF value below `C0 - a0/2`.  (The code raises `IndexError` in the second
case and `RuntimeError` in the first; the spec's `FitConvergenceError` names
this failure family.) -/
theorem c6_fit_failure_iff (vrads ccf : List ℚ) (cf : CurveFit ℚ) :
    (∃ e, epochFit vrads ccf cf = Except.error e)
      ↔ (cf.converges = false ∨ ∀ x ∈ ccf, ¬(x < halfDepth ccf)) := by
  rw [epochFit]
  have hnone : p0Guess vrads ccf = none ↔ ∀ x ∈ ccf, ¬(x < halfDepth ccf) := by
    rw [p0Guess, Option.map_eq_none', List.findIdx?_eq_none_iff]
    constructor
    · intro h x hx
      have := h x hx
      simpa [halfDepth] using this
    · intro h x hx
      simpa [halfDepth] using h x hx
  constructor
  · rcases hp : p0Guess vrads ccf with _ | p0
    · exact fun _ => Or.inr (hnone.1 hp)
    · intro ⟨e, he⟩
      rcases hc : cf.converges with _ | _
      · exact Or.inl rfl
      · rw [hc] at he; simp at he
  · intro h
    rcases hp : p0Guess vrads ccf with _ | p0
    · exact ⟨.indexError, rfl⟩
    · rcases h with hc | hcross
      · rw [hc]; exact ⟨.runtimeError, rfl⟩
      · exact absurd (hnone.2 hcross) (by rw [hp]; simp)

/-- Evaluation of the toy velocity grid `[-1, 1, 1]` used by the concrete
instances below. -/
lemma vradsGrid_neg1_1_1 : vradsGrid (-1) 1 1 = [-1, 0, 1] := by
  have h : ⌈((1 + 1 / 2 : ℚ) - (-1)) / 1⌉ = 3 := by rw [Int.ceil_eq_iff]; norm_num
  rw [vradsGrid, npArange, h]
  show List.map _ (List.range 3) = _
  norm_num [List.range_succ]

/-- C5 counterexample: a mask entirely outside the spectrum's wavelength
range at both velocity-grid extremes does NOT make the pre-epoch phase of
`compute_vrad_ccf` fail — it completes with an empty filtered mask, so no
`DomainError` (nor any other error) is raised before epoch processing. -/
theorem c5_no_error_before_epochs :
    preEpochPhase [5000, 5001] (vradsGrid (-1) 1 1) [4000] [1] = Except.ok ([], [])
    ∧ ∀ e : PyExc,
        preEpochPhase [5000, 5001] (vradsGrid (-1) 1 1) [4000] [1] ≠ Except.error e := by
  have hkeep : maskKeep [5000, 5001] (vradsGrid (-1) 1 1) 4000 = false := by
    rw [vradsGrid_neg1_1_1]
    norm_num [maskKeep, doppler_shift, cLight, pyMin, pyMax]
  refine ⟨?_, ?_⟩
  · rw [preEpochPhase]
    simp [hkeep]
  · intro e
    rw [preEpochPhase]
    simp [hkeep]

/-- C5 amended: when the pre-filter leaves no mask line, the pre-epoch phase
of `compute_vrad_ccf` completes without error, with empty filtered mask and
weight arrays; the `DomainError` of the spec-modelled Doppler shift on the
empty wavelength array then occurs inside the first epoch's processing, at
the first shifted-centers computation of the CCF loop — not before any epoch
is processed. -/
theorem c5_empty_mask_fails_inside_epoch (wave vrads wc w : List ℚ)
    (hempty : (wc.zip w).filter (fun p => maskKeep wave vrads p.1) = []) :
    preEpochPhase wave vrads wc w = Except.ok ([], [])
    ∧ (∀ (flux flux_err : List ℚ) (v : ℚ),
        ccfPointChecked wave flux flux_err [] [] v = Except.error PyExc.domainError) := by
  refine ⟨?_, ?_⟩
  · rw [preEpochPhase]
    simp [hempty]
  · intro flux flux_err v
    rfl

/-- Concrete instantiation of `c5_empty_mask_fails_inside_epoch` at the
fully-outside mask of the counterexample, evaluating the first epoch's loop
body at the central grid velocity. -/
theorem c5_empty_mask_witness :
    preEpochPhase [5000, 5001] (vradsGrid (-1) 1 1) [4000] [1] = Except.ok ([], [])
    ∧ ccfPointChecked [5000, 5001] [1, 1] [1, 1] [] [] 0 = Except.error PyExc.domainError :=
  have h := c5_empty_mask_fails_inside_epoch [5000, 5001] (vradsGrid (-1) 1 1) [4000] [1]
    (by rw [vradsGrid_neg1_1_1]
        norm_num [maskKeep, doppler_shift, cLight, pyMin, pyMax])
  ⟨h.1, h.2 [1, 1] [1, 1] 0⟩

/-- C8 counterexample: when `add_spec` was never called the spec dict is
empty, and `compute_vrad_ccf` fails with a `KeyError` — not the `ValueError`
that realizes the spec's `ValidationError` (the code's own missing-data
message is raised as `ValueError`). -/
theorem c8_missing_dict_is_key_error :
    validateSpec none = Except.error PyExc.keyError
    ∧ PyExc.keyError ≠ PyExc.valueError := by
  exact ⟨rfl, by decide⟩

lemma npTruthy_error (a : Option (List ℚ)) (e : PyExc)
    (h : npTruthy a = Except.error e) : e = PyExc.valueError := by
  rcases a with _ | l
  · simp [npTruthy] at h
  · rw [npTruthy] at h
    split at h
    · simp at h
    · exact (Except.error.inj h).symm

lemma validateSpec_ok_iff (s : SpecDict) :
    validateSpec (some s) = Except.ok ()
      ↔ npTruthy s.time = Except.ok true ∧ npTruthy s.wave = Except.ok true
        ∧ npTruthy s.flux_val = Except.ok true ∧ npTruthy s.flux_err = Except.ok true := by
  rw [validateSpec]
  rcases hts : npTruthy s.time with e | t
  · simp [hts]
  · cases t
    · simp [hts]
    · rcases hws : npTruthy s.wave with e | b
      · simp [hws]
      · cases b
        · simp [hws]
        · rcases hfs : npTruthy s.flux_val with e | b2
          · simp [hfs]
          · cases b2
            · simp [hfs]
            · rcases hes : npTruthy s.flux_err with e | b3
              · simp [hes]
              · cases b3 <;> simp [hes]

lemma validateSpec_some_error (s : SpecDict) (e : PyExc)
    (h : validateSpec (some s) = Except.error e) : e = PyExc.valueError := by
  rw [validateSpec] at h
  rcases hts : npTruthy s.time with e1 | t <;> rw [hts] at h
  · exact (Except.error.inj h) ▸ npTruthy_error _ _ hts
  · cases t
    · exact (Except.error.inj h).symm
    · simp only [Bool.not_true, if_false] at h
      rcases hws : npTruthy s.wave with e2 | b <;> rw [hws] at h
      · exact (Except.error.inj h) ▸ npTruthy_error _ _ hws
      · cases b
        · exact (Except.error.inj h).symm
        · simp only [Bool.not_true, if_false] at h
          rcases hfs : npTruthy s.flux_val with e3 | b2 <;> rw [hfs] at h
          · exact (Except.error.inj h) ▸ npTruthy_error _ _ hfs
          · cases b2
            · exact (Except.error.inj h).symm
            · simp only [Bool.not_true, if_false] at h
              rcases hes : npTruthy s.flux_err with e4 | b3 <;> rw [hes] at h
              · exact (Except.error.inj h) ▸ npTruthy_error _ _ hes
              · cases b3
                · exact (Except.error.inj h).symm
                · simp at h

/-- C8 amended: absence of any of the four value arrays never leads to a
silent skip.  With the spec dict present (e.g. `flux_err` left as `None`)
the guard raises a `ValueError` — either the explicit missing-data error or
numpy's ambiguous-truth `ValueError` met while coercing an earlier
multi-element array to `bool`; with `add_spec` never called it raises a
`KeyError` instead. -/
theorem c8_missing_array_raises (s : SpecDict)
    (h : s.time = none ∨ s.wave = none ∨ s.flux_val = none ∨ s.flux_err = none) :
    validateSpec (some s) = Except.error PyExc.valueError
    ∧ validateSpec none = Except.error PyExc.keyError := by
  refine ⟨?_, rfl⟩
  rcases hv : validateSpec (some s) with e | u
  · rw [validateSpec_some_error s e hv]
  · cases u
    have hok := (validateSpec_ok_iff s).1 hv
    exfalso
    rcases h with h | h | h | h <;>
      first
        | exact absurd (h ▸ hok.1) (by rw [npTruthy]; simp)
        | exact absurd (h ▸ hok.2.1) (by rw [npTruthy]; simp)
        | exact absurd (h ▸ hok.2.2.1) (by rw [npTruthy]; simp)
        | exact absurd (h ▸ hok.2.2.2) (by rw [npTruthy]; simp)

/-- Concrete instantiation of `c8_missing_array_raises`: three one-element
arrays present, `flux_err` left as `None`. -/
theorem c8_missing_array_witness :
    validateSpec (some ⟨some [1], some [1], some [1], none⟩)
        = Except.error PyExc.valueError
    ∧ validateSpec none = Except.error PyExc.keyError :=
  c8_missing_array_raises ⟨some [1], some [1], some [1], none⟩
    (Or.inr (Or.inr (Or.inr rfl)))

lemma sum_eq_range_getD (l : List ℝ) :
    l.sum = ∑ j ∈ Finset.range l.length, l.getD j 0 := by
  induction l with
  | nil => simp
  | cons a t ih =>
    rw [List.sum_cons, List.length_cons, Finset.sum_range_succ']
    simp [ih, add_comm]

lemma npGradient_length (l : List ℝ) : (npGradient l).length = l.length := by
  simp [npGradient]

/-- C2: the reported per-epoch RV error equals
`1/sqrt(Σ_j (1/|ccf_err_j · d(velocity)/d(ccf) at j|)²)` with the
finite-difference gradient ratio, and it does not depend on the Gaussian
fit's output at all — in particular not on the fit covariance. -/
theorem c2_rv_error_propagation (vrads ccf_val ccf_err : List ℝ)
    (hv : ccf_val.length = vrads.length) (he : ccf_err.length = vrads.length) :
    vradErrCode vrads ccf_val ccf_err = vradErrSpec vrads ccf_val ccf_err
    ∧ ∀ cf cf' : CurveFit ℝ,
        (epochRV vrads ccf_val ccf_err cf).2 = (epochRV vrads ccf_val ccf_err cf').2 := by
  refine ⟨?_, fun _ _ => rfl⟩
  rw [vradErrCode, vradErrSpec]
  congr 2
  have hgv : (npGradient vrads).length = vrads.length := npGradient_length vrads
  have hgc : (npGradient ccf_val).length = ccf_val.length := npGradient_length ccf_val
  have hzin : (List.zipWith (fun a b => a * b) ccf_err (npGradient vrads)).length
      = vrads.length := by
    rw [List.length_zipWith, he, hgv, Nat.min_self]
  have hz : (List.zipWith (fun a b => a / b)
      (List.zipWith (fun a b => a * b) ccf_err (npGradient vrads))
      (npGradient ccf_val)).length = vrads.length := by
    rw [List.length_zipWith, hzin, hgc, hv, Nat.min_self]
  rw [sum_eq_range_getD, List.length_map, hz]
  apply Finset.sum_congr rfl
  intro j hj
  have hjn : j < vrads.length := Finset.mem_range.1 hj
  have hjm : j < (List.zipWith (fun a b => a / b)
      (List.zipWith (fun a b => a * b) ccf_err (npGradient vrads))
      (npGradient ccf_val)).length := by rw [hz]; exact hjn
  rw [getD_eq_getElem_of_lt _ _ _ (by rw [List.length_map]; exact hjm),
    List.getElem_map, List.getElem_zipWith, List.getElem_zipWith,
    getD_eq_getElem_of_lt ccf_err j 0 (by rw [he]; exact hjn),
    getD_eq_getElem_of_lt (npGradient vrads) j 0 (by rw [hgv]; exact hjn),
    getD_eq_getElem_of_lt (npGradient ccf_val) j 0 (by rw [hgc, hv]; exact hjn)]

/-- Concrete instantiation of `c2_rv_error_propagation` on a three-point
grid. -/
theorem c2_rv_error_witness :
    vradErrCode [0, 1, 2] [1, 0, 1] [1, 1, 1] = vradErrSpec [0, 1, 2] [1, 0, 1] [1, 1, 1]
    ∧ ∀ cf cf' : CurveFit ℝ,
        (epochRV [0, 1, 2] [1, 0, 1] [1, 1, 1] cf).2
          = (epochRV [0, 1, 2] [1, 0, 1] [1, 1, 1] cf').2 :=
  c2_rv_error_propagation [0, 1, 2] [1, 0, 1] [1, 1, 1] rfl rfl

lemma headD_eq_getElem {α : Type} [LinearOrder α] (l : List α) (d : α)
    (hl : 0 < l.length) : l.headD d = l[0] := by
  cases l with
  | nil => simp at hl
  | cons a t => rfl

lemma headD_mem {α : Type} [LinearOrder α] (l : List α) (d : α) (hl : l ≠ []) :
    l.headD d ∈ l := by
  cases l with
  | nil => exact absurd rfl hl
  | cons a t => exact List.mem_cons_self a t

lemma getLastD_eq_getElem {α : Type} [LinearOrder α] (l : List α) (d : α)
    (hl : 0 < l.length) : l.getLastD d = l[l.length - 1] := by
  have hne : l ≠ [] := by
    intro h
    rw [h] at hl
    simp at hl
  rw [List.getLastD_eq_getLast?, List.getLast?_eq_getLast l hne, Option.getD_some,
    List.getLast_eq_getElem]

lemma getLastD_mem {α : Type} [LinearOrder α] (l : List α) (d : α) (hl : l ≠ []) :
    l.getLastD d ∈ l := by
  rw [List.getLastD_eq_getLast?, List.getLast?_eq_getLast l hl, Option.getD_some]
  exact List.getLast_mem hl

lemma sorted_headD_le {α : Type} [LinearOrder α] (l : List α) (d : α)
    (hl : List.Chain' (· < ·) l) (x : α) (hx : x ∈ l) : l.headD d ≤ x := by
  have hp := List.chain'_iff_pairwise.1 hl
  obtain ⟨i, hi, rfl⟩ := List.mem_iff_getElem.1 hx
  have hne : l ≠ [] := by
    intro h
    rw [h] at hi
    simp at hi
  rw [headD_eq_getElem l d (List.length_pos.2 hne)]
  rcases Nat.eq_zero_or_pos i with rfl | hipos
  · exact le_refl _
  · exact le_of_lt (List.pairwise_iff_getElem.1 hp 0 i _ hi hipos)

lemma sorted_le_getLastD {α : Type} [LinearOrder α] (l : List α) (d : α)
    (hl : List.Chain' (· < ·) l) (x : α) (hx : x ∈ l) : x ≤ l.getLastD d := by
  have hp := List.chain'_iff_pairwise.1 hl
  obtain ⟨i, hi, rfl⟩ := List.mem_iff_getElem.1 hx
  have hne : l ≠ [] := by
    intro h
    rw [h] at hi
    simp at hi
  rw [getLastD_eq_getElem l d (List.length_pos.2 hne)]
  rcases Nat.lt_or_ge i (l.length - 1) with hlt | hge
  · exact le_of_lt (List.pairwise_iff_getElem.1 hp i (l.length - 1) hi (by omega) hlt)
  · have : i = l.length - 1 := by omega
    subst this
    exact le_refl _

lemma foldl_max_le (l : List ℚ) (a b : ℚ) (hab : a ≤ b) (h : ∀ x ∈ l, x ≤ b) :
    l.foldl max a ≤ b := by
  induction l generalizing a with
  | nil => simpa using hab
  | cons x t ih =>
    exact ih (max a x) (max_le hab (h x (List.mem_cons_self x t)))
      (fun y hy => h y (List.mem_cons_of_mem x hy))

lemma pyMin_sorted (l : List ℚ) (hl : List.Chain' (· < ·) l) : pyMin l = l.headD 0 :=
  foldl_min_eq_of_le l (l.headD 0) (sorted_headD_le l 0 hl)

lemma pyMax_sorted (l : List ℚ) (hl : List.Chain' (· < ·) l) (hne : l ≠ []) :
    pyMax l = l.getLastD 0 := by
  refine le_antisymm ?_ (le_pyMax l _ (getLastD_mem l 0 hne))
  exact foldl_max_le l (l.headD 0) (l.getLastD 0)
    (sorted_le_getLastD l 0 hl _ (headD_mem l 0 hne)) (sorted_le_getLastD l 0 hl)

lemma doppler_shift_mono (c : ℚ) (hc : 0 < c) {a b : ℚ} (h : a ≤ b) :
    doppler_shift c a ≤ doppler_shift c b := by
  rw [doppler_shift, doppler_shift]
  have hcl : (0 : ℚ) < cLight := by norm_num [cLight]
  have hdiv : a / cLight ≤ b / cLight := (div_le_div_iff_of_pos_right hcl).2 h
  exact mul_le_mul_of_nonneg_left (by linarith) hc.le

lemma npGet_natCast (l : List ℚ) (n : ℕ) : npGet l (n : ℤ) = l.getD n 0 := by
  rw [npGet, if_neg (not_lt.2 (Int.natCast_nonneg n)), Int.toNat_natCast]

/-- C9: for a strictly increasing positive wavelength array, a positive mask
line retained by the pre-filter and any velocity of the grid, the
right-insertion index of the Doppler-shifted center satisfies
`1 ≤ i_r ≤ len(wave) − 1` (so the `i_l = i_r − 1` and `i_r` indexing into the
equal-length flux and error arrays is in bounds) and the interpolation
denominator `wave[i_r] − wave[i_l]` is nonzero. -/
theorem c9_interpolation_safety (wave vrads : List ℚ) (wc v : ℚ)
    (hsort : List.Chain' (· < ·) wave) (hpos : ∀ x ∈ wave, 0 < x) (hwc : 0 < wc)
    (hv : v ∈ vrads) (hkeep : maskKeep wave vrads wc = true) :
    1 ≤ searchsortedRight wave (doppler_shift wc v)
    ∧ searchsortedRight wave (doppler_shift wc v) ≤ wave.length - 1
    ∧ npGet wave (searchsortedRight wave (doppler_shift wc v) : ℤ)
        - npGet wave ((searchsortedRight wave (doppler_shift wc v) : ℤ) - 1) ≠ 0 := by
  rw [maskKeep, Bool.and_eq_true, decide_eq_true_eq, decide_eq_true_eq] at hkeep
  obtain ⟨h1, h2⟩ := hkeep
  have hminv : pyMin vrads ≤ v := pyMin_le vrads v hv
  have hmaxv : v ≤ pyMax vrads := le_pyMax vrads v hv
  have hs1 : pyMin wave < doppler_shift wc v :=
    lt_of_lt_of_le h1 (doppler_shift_mono wc hwc hminv)
  have hs2 : doppler_shift wc v < pyMax wave :=
    lt_of_le_of_lt (doppler_shift_mono wc hwc hmaxv) h2
  have hwne : wave ≠ [] := by
    intro h
    rw [h] at hs1 hs2
    simp only [pyMin, pyMax, List.headD_nil, List.foldl_nil] at hs1 hs2
    linarith
  have h1r : 1 ≤ searchsortedRight wave (doppler_shift wc v) := by
    obtain ⟨a, t, rfl⟩ := List.exists_cons_of_ne_nil hwne
    have ha : a < doppler_shift wc v := by
      have := pyMin_sorted (a :: t) hsort
      rw [this] at hs1
      exact hs1
    rw [searchsortedRight, List.findIdx_cons]
    simp [not_lt.2 (le_of_lt ha)]
  have hlt : searchsortedRight wave (doppler_shift wc v) < wave.length := by
    apply List.findIdx_lt_length_of_exists
    refine ⟨wave.getLastD 0, getLastD_mem wave 0 hwne, ?_⟩
    rw [decide_eq_true_eq]
    rw [pyMax_sorted wave hsort hwne] at hs2
    exact hs2
  refine ⟨h1r, Nat.le_pred_of_lt hlt, ?_⟩
  have hprev : ((searchsortedRight wave (doppler_shift wc v) : ℤ) - 1)
      = ((searchsortedRight wave (doppler_shift wc v) - 1 : ℕ) : ℤ) := by omega
  rw [hprev, npGet_natCast, npGet_natCast]
  have hlt' : searchsortedRight wave (doppler_shift wc v) - 1 < wave.length := by omega
  rw [getD_eq_getElem_of_lt _ _ _ hlt, getD_eq_getElem_of_lt _ _ _ hlt']
  have hp := List.chain'_iff_pairwise.1 hsort
  have hless : wave[searchsortedRight wave (doppler_shift wc v) - 1]
      < wave[searchsortedRight wave (doppler_shift wc v)] :=
    List.pairwise_iff_getElem.1 hp _ _ hlt' hlt (by omega)
  exact (sub_pos.2 hless).ne'

/-- Concrete instantiation of `c9_interpolation_safety`: a three-pixel
spectrum, the mask line at 5000 Å and the central velocity of the grid
`[-1, 1, 1]` km/s. -/
theorem c9_interpolation_witness :
    1 ≤ searchsortedRight [4999, 5000, 5001] (doppler_shift 5000 0)
    ∧ searchsortedRight [4999, 5000, 5001] (doppler_shift 5000 0)
        ≤ ([4999, 5000, 5001] : List ℚ).length - 1
    ∧ npGet [4999, 5000, 5001] (searchsortedRight [4999, 5000, 5001] (doppler_shift 5000 0) : ℤ)
        - npGet [4999, 5000, 5001]
            ((searchsortedRight [4999, 5000, 5001] (doppler_shift 5000 0) : ℤ) - 1) ≠ 0 :=
  c9_interpolation_safety [4999, 5000, 5001] (vradsGrid (-1) 1 1) 5000 0
    (by norm_num [List.chain'_cons])
    (by norm_num)
    (by norm_num)
    (by rw [vradsGrid_neg1_1_1]; norm_num)
    (by rw [vradsGrid_neg1_1_1]
        norm_num [maskKeep, pyMin, pyMax, doppler_shift, cLight, min_def, max_def])

lemma freqBinEdge_mono (f0 fN : ℝ) (h0 : 0 < f0) (hN : f0 ≤ fN) (i j : ℕ)
    (hij : i ≤ j) : freqBinEdge f0 fN i ≤ freqBinEdge f0 fN j := by
  rw [freqBinEdge, freqBinEdge]
  apply Real.rpow_le_rpow_of_exponent_le (by norm_num)
  have hlog : Real.logb 10 f0 ≤ Real.logb 10 fN :=
    Real.logb_le_logb_of_le (by norm_num) h0 hN
  have hd : 0 ≤ (Real.logb 10 fN - Real.logb 10 f0) / 50 :=
    div_nonneg (by linarith) (by norm_num)
  have hcast : (i : ℝ) ≤ (j : ℝ) := Nat.cast_le.2 hij
  nlinarith

lemma freqBinEdge_zero (f0 fN : ℝ) (h0 : 0 < f0) : freqBinEdge f0 fN 0 = f0 := by
  rw [freqBinEdge]
  simp only [Nat.cast_zero, zero_mul, add_zero]
  exact Real.rpow_logb (by norm_num) (by norm_num) h0

lemma freqBinEdge_last (f0 fN : ℝ) (hN : 0 < fN) : freqBinEdge f0 fN 50 = fN := by
  rw [freqBinEdge]
  have h : Real.logb 10 f0 + ((50 : ℕ) : ℝ) * ((Real.logb 10 fN - Real.logb 10 f0) / 50)
      = Real.logb 10 fN := by
    push_cast
    ring
  rw [h]
  exact Real.rpow_logb (by norm_num) (by norm_num) hN

/-- C4: `compute_vpsd` builds 50 log-spaced bins from 51 edges spanning the
first and last periodogram frequency, averages power per bin, drops empty
bins jointly from the averaged frequency and power arrays, and divides both
the full-resolution and the binned power by the window area; consequently at
most 50 averaged pairs remain and each one's frequency lies within its source
bin's edges. -/
theorem c4_vpsd_binning (freq vps : List ℝ) (winArea : ℝ)
    (hne : freq ≠ []) (hsort : List.Chain' (· < ·) freq) (hpos : 0 < freq.headD 0) :
    (freqBin freq).length = 51
    ∧ (freqBin freq).headD 0 = freq.headD 0
    ∧ (freqBin freq).getLastD 0 = freq.getLastD 0
    ∧ (binnedAvg freq vps).length ≤ 50
    ∧ (∀ q ∈ binnedAvg freq vps, ∃ i, i < 50
        ∧ vpsAvgAt freq vps i = some q.2
        ∧ q.1 = freqAvgAt freq i
        ∧ freqBinEdge (freq.headD 0) (freq.getLastD 0) i ≤ q.1
        ∧ q.1 ≤ freqBinEdge (freq.headD 0) (freq.getLastD 0) (i + 1))
    ∧ (∀ j, j < vps.length → (vpsdOf vps winArea).getD j 0 = vps.getD j 0 / winArea)
    ∧ (∀ j, j < (binnedAvg freq vps).length →
        (vpsdAvgOf freq vps winArea).getD j 0
          = ((binnedAvg freq vps).getD j (0, 0)).2 / winArea) := by
  have hfle : freq.headD 0 ≤ freq.getLastD 0 :=
    sorted_headD_le freq 0 hsort _ (getLastD_mem freq 0 hne)
  have hNpos : 0 < freq.getLastD 0 := lt_of_lt_of_le hpos hfle
  refine ⟨by simp [freqBin], ?_, ?_, ?_, ?_, ?_, ?_⟩
  · rw [freqBin, List.range_succ_eq_map, List.map_cons, List.headD_cons]
    exact freqBinEdge_zero _ _ hpos
  · rw [freqBin, List.range_succ, List.map_append, List.map_cons, List.map_nil]
    rw [List.getLastD_concat]
    exact freqBinEdge_last _ _ hNpos
  · exact le_trans (List.length_filterMap_le _ _) (by simp)
  · intro q hq
    obtain ⟨i, hir, hfi⟩ := List.mem_filterMap.1 hq
    obtain ⟨m, hm, hqm⟩ := Option.map_eq_some'.1 hfi
    have hi50 : i < 50 := List.mem_range.1 hir
    refine ⟨i, hi50, ?_, ?_, ?_, ?_⟩
    · rw [hm, ← hqm]
    · rw [← hqm]
    · rw [← hqm]
      have := freqBinEdge_mono (freq.headD 0) (freq.getLastD 0) hpos hfle
        i (i + 1) (Nat.le_succ i)
      show freqBinEdge _ _ i ≤ freqAvgAt freq i
      rw [freqAvgAt]
      linarith
    · rw [← hqm]
      have := freqBinEdge_mono (freq.headD 0) (freq.getLastD 0) hpos hfle
        i (i + 1) (Nat.le_succ i)
      show freqAvgAt freq i ≤ freqBinEdge _ _ (i + 1)
      rw [freqAvgAt]
      linarith
  · intro j hj
    rw [vpsdOf, getD_eq_getElem_of_lt _ _ _ (by simpa using hj), List.getElem_map,
      getD_eq_getElem_of_lt _ _ _ hj]
  · intro j hj
    rw [vpsdAvgOf, getD_eq_getElem_of_lt _ _ _ (by simpa using hj), List.getElem_map,
      getD_eq_getElem_of_lt _ _ _ hj]

/-- Concrete instantiation of `c4_vpsd_binning` on a two-point periodogram. -/
theorem c4_vpsd_binning_witness :
    (freqBin [1, 10]).length = 51
    ∧ (freqBin [1, 10]).headD 0 = ([1, 10] : List ℝ).headD 0
    ∧ (freqBin [1, 10]).getLastD 0 = ([1, 10] : List ℝ).getLastD 0
    ∧ (binnedAvg [1, 10] [5, 7]).length ≤ 50
    ∧ (∀ q ∈ binnedAvg [1, 10] [5, 7], ∃ i, i < 50
        ∧ vpsAvgAt [1, 10] [5, 7] i = some q.2
        ∧ q.1 = freqAvgAt [1, 10] i
        ∧ freqBinEdge (([1, 10] : List ℝ).headD 0) (([1, 10] : List ℝ).getLastD 0) i ≤ q.1
        ∧ q.1 ≤ freqBinEdge (([1, 10] : List ℝ).headD 0) (([1, 10] : List ℝ).getLastD 0) (i + 1))
    ∧ (∀ j, j < ([5, 7] : List ℝ).length →
        (vpsdOf [5, 7] 2).getD j 0 = ([5, 7] : List ℝ).getD j 0 / 2)
    ∧ (∀ j, j < (binnedAvg [1, 10] [5, 7]).length →
        (vpsdAvgOf [1, 10] [5, 7] 2).getD j 0
          = ((binnedAvg [1, 10] [5, 7]).getD j (0, 0)).2 / 2) :=
  c4_vpsd_binning [1, 10] [5, 7] 2 (by simp) (by norm_num [List.chain'_cons])
    (by norm_num)

/-- C10: bin membership in `compute_vpsd` uses strict inequalities, so a
periodogram frequency exactly equal to any bin edge is selected into no bin;
in particular the first and last frequencies, which equal the outermost
edges, contribute to no binned average. -/
theorem c10_bin_edges_excluded (freq vps : List ℝ)
    (hne : freq ≠ []) (hsort : List.Chain' (· < ·) freq) (hpos : 0 < freq.headD 0) :
    (∀ f : ℝ, (∃ k, k ≤ 50 ∧ f = freqBinEdge (freq.headD 0) (freq.getLastD 0) k) →
        ∀ i, i < 50 → ∀ y : ℝ, (f, y) ∉ binPairs freq vps i)
    ∧ freq.headD 0 = freqBinEdge (freq.headD 0) (freq.getLastD 0) 0
    ∧ freq.getLastD 0 = freqBinEdge (freq.headD 0) (freq.getLastD 0) 50
    ∧ (∀ i, i < 50 → ∀ y : ℝ,
        (freq.headD 0, y) ∉ binPairs freq vps i
        ∧ (freq.getLastD 0, y) ∉ binPairs freq vps i) := by
  have hfle : freq.headD 0 ≤ freq.getLastD 0 :=
    sorted_headD_le freq 0 hsort _ (getLastD_mem freq 0 hne)
  have hNpos : 0 < freq.getLastD 0 := lt_of_lt_of_le hpos hfle
  have hmono := freqBinEdge_mono (freq.headD 0) (freq.getLastD 0) hpos hfle
  have hexcl : ∀ f : ℝ,
      (∃ k, k ≤ 50 ∧ f = freqBinEdge (freq.headD 0) (freq.getLastD 0) k) →
      ∀ i, i < 50 → ∀ y : ℝ, (f, y) ∉ binPairs freq vps i := by
    rintro f ⟨k, hk50, rfl⟩ i hi y hmem
    have hsel := (List.mem_filter.1 hmem).2
    rw [Bool.and_eq_true, decide_eq_true_eq, decide_eq_true_eq] at hsel
    obtain ⟨hlo, hhi⟩ := hsel
    rcases Nat.lt_or_ge k (i + 1) with hki | hki
    · exact absurd hlo (not_lt.2 (hmono _ _ (Nat.lt_succ_iff.1 hki)))
    · exact absurd hhi (not_lt.2 (hmono _ _ hki))
  have hzero : freq.headD 0 = freqBinEdge (freq.headD 0) (freq.getLastD 0) 0 :=
    (freqBinEdge_zero _ _ hpos).symm
  have hlast : freq.getLastD 0 = freqBinEdge (freq.headD 0) (freq.getLastD 0) 50 :=
    (freqBinEdge_last _ _ hNpos).symm
  refine ⟨hexcl, hzero, hlast, ?_⟩
  intro i hi y
  exact ⟨hexcl _ ⟨0, by omega, hzero⟩ i hi y, hexcl _ ⟨50, le_refl 50, hlast⟩ i hi y⟩

/-- Concrete instantiation of `c10_bin_edges_excluded` on a two-point
periodogram. -/
theorem c10_bin_edges_witness :
    (∀ f : ℝ,
        (∃ k, k ≤ 50
          ∧ f = freqBinEdge (([1, 10] : List ℝ).headD 0) (([1, 10] : List ℝ).getLastD 0) k) →
        ∀ i, i < 50 → ∀ y : ℝ, (f, y) ∉ binPairs [1, 10] [5, 7] i)
    ∧ ([1, 10] : List ℝ).headD 0
        = freqBinEdge (([1, 10] : List ℝ).headD 0) (([1, 10] : List ℝ).getLastD 0) 0
    ∧ ([1, 10] : List ℝ).getLastD 0
        = freqBinEdge (([1, 10] : List ℝ).headD 0) (([1, 10] : List ℝ).getLastD 0) 50
    ∧ (∀ i, i < 50 → ∀ y : ℝ,
        (([1, 10] : List ℝ).headD 0, y) ∉ binPairs [1, 10] [5, 7] i
        ∧ (([1, 10] : List ℝ).getLastD 0, y) ∉ binPairs [1, 10] [5, 7] i) :=
  c10_bin_edges_excluded [1, 10] [5, 7] (by simp) (by norm_num [List.chain'_cons])
    (by norm_num)

end Arve
